import Mathlib

/-!
Verification of the secrets-for-android App Engine backend: the record
lookup / match classifier (`helper.py`) and the secrets access controller
(`secret_page.py`, `enable_page.py`).

The datastore is modelled as a `List UserRecord`.  The GAE query
`UserRecord.all().filter(email).fetch(1)` resolves to the *first* record in
the list whose `email` field matches; `record.put()` on that entity is
modelled as an in-place replacement at its position and `record.delete()`
as removal of that position.  Timestamps (`created` auto_now_add,
`last_modified` auto_now) are modelled by threading an explicit `now : Nat`
through the mutating operations.
-/

/-- Embeds `UserRecord` from `user_record.py`: email (unique id), salt
(password-like), opaque secrets blob, enabled flag, and the two
datastore-managed timestamps. -/
structure UserRecord where
  email : String
  salt : String
  secrets : String
  enabled : Bool
  created : Nat
  last_modified : Nat
deriving DecidableEq

/-- `MAX_SIZE = 25 * 1024` from `secret_page.py`. -/
def MAX_SIZE : Nat := 25 * 1024

/-- Embeds `helper.FindUserRecord(email, salt)`: if the email is non-empty,
query for the first record with that email; `exact` records whether its salt
equals the request salt.  Returns `(none, false)` when the email is empty or
no record matches. -/
def FindUserRecord (db : List UserRecord) (email salt : String) :
    Option UserRecord × Bool :=
  if email ≠ "" then
    match db.find? (fun r => r.email == email) with
    | some r => (some r, r.salt == salt)
    | none => (none, false)
  else
    (none, false)

/-- Embeds `helper.FindEnabledUserRecord(email, salt)`: delegate to
`FindUserRecord` and keep the result only if the record is enabled. -/
def FindEnabledUserRecord (db : List UserRecord) (email salt : String) :
    Option UserRecord × Bool :=
  match FindUserRecord db email salt with
  | (some r, ex) => if r.enabled then (some r, ex) else (none, false)
  | (none, _) => (none, false)

/-- The spec's `MatchResult` classification vocabulary. -/
inductive MatchResult
  | NoMatch
  | PartialMatch (r : UserRecord)
  | ExactMatch (r : UserRecord)
deriving DecidableEq

/-- Reads a `(record, exact)` pair of the source as a `MatchResult`. -/
def toMatchResult : Option UserRecord × Bool → MatchResult
  | (none, _) => MatchResult.NoMatch
  | (some r, false) => MatchResult.PartialMatch r
  | (some r, true) => MatchResult.ExactMatch r

/-- The spec's `Classify(email, salt)` is the source's `FindUserRecord`
read as a `MatchResult`. -/
def Classify (db : List UserRecord) (email salt : String) : MatchResult :=
  toMatchResult (FindUserRecord db email salt)

/-- The spec's `ClassifyEnabledOnly(email, salt)` is the source's
`FindEnabledUserRecord` read as a `MatchResult`. -/
def ClassifyEnabledOnly (db : List UserRecord) (email salt : String) : MatchResult :=
  toMatchResult (FindEnabledUserRecord db email salt)

/-- Replaces the first record with the given email (the entity a
`fetch(1)` query resolved) by its updated image; models `record.put()` on
an existing entity. -/
def replaceFirst (db : List UserRecord) (email : String)
    (f : UserRecord → UserRecord) : List UserRecord :=
  match db with
  | [] => []
  | r :: rest =>
    if r.email == email then f r :: rest else r :: replaceFirst rest email f

/-- Removes the first record with the given email; models `record.delete()`
on the entity a `fetch(1)` query resolved. -/
def removeFirst (db : List UserRecord) (email : String) : List UserRecord :=
  match db with
  | [] => []
  | r :: rest =>
    if r.email == email then rest else r :: removeFirst rest email

/-- Outcome of the GET handler. -/
inductive FetchResult
  | Authorized (payload : String)
  | Forbidden
deriving DecidableEq

/-- Outcome of the PUT handler.  The source reports both rejections with
HTTP 403 but with distinct bodies: `Invalid request` for the size rejection
and `Invalid credentials` otherwise; the spec names them `TooLarge` and
`Forbidden`. -/
inductive StoreResult
  | Stored
  | TooLarge
  | Forbidden
deriving DecidableEq

/-- Outcome of the DELETE handler. -/
inductive DeleteResult
  | Deleted
  | Forbidden
deriving DecidableEq

/-- Outcome of the enable/disable handler. -/
inductive EnableResult
  | Updated
  | Forbidden
deriving DecidableEq

namespace SecretsPage

/-- Embeds `SecretsPage.get` of `secret_page.py` (the non-override branch):
look up with `FindEnabledUserRecord`; on an exact enabled match write the
stored secrets with status 200, otherwise 403 `Invalid credentials`. -/
def get (db : List UserRecord) (email salt : String) : FetchResult :=
  match FindEnabledUserRecord db email salt with
  | (some r, true) => FetchResult.Authorized r.secrets
  | _ => FetchResult.Forbidden

/-- Embeds `SecretsPage.put` of `secret_page.py`: reject bodies larger than
`MAX_SIZE` first; then require non-empty email and salt; then on an exact
enabled match overwrite that record's secrets, on no (enabled) record create
a new enabled record, and otherwise reject. -/
def put (db : List UserRecord) (email salt body : String) (now : Nat) :
    StoreResult × List UserRecord :=
  if MAX_SIZE < body.length then
    (StoreResult.TooLarge, db)
  else if email ≠ "" ∧ salt ≠ "" then
    match FindEnabledUserRecord db email salt with
    | (some _, true) =>
      (StoreResult.Stored,
       replaceFirst db email (fun r => { r with secrets := body, last_modified := now }))
    | (some _, false) => (StoreResult.Forbidden, db)
    | (none, _) =>
      (StoreResult.Stored,
       db ++ [{ email := email, salt := salt, secrets := body, enabled := true,
                created := now, last_modified := now }])
  else
    (StoreResult.Forbidden, db)

/-- Embeds `SecretsPage.delete` of `secret_page.py`: look up with
`FindEnabledUserRecord`; on an exact enabled match delete the record with
status 200, otherwise 403 `Invalid credentials`. -/
def delete (db : List UserRecord) (email salt : String) :
    DeleteResult × List UserRecord :=
  match FindEnabledUserRecord db email salt with
  | (some _, true) => (DeleteResult.Deleted, removeFirst db email)
  | _ => (DeleteResult.Forbidden, db)

end SecretsPage

namespace EnablePage

/-- Embeds `EnablePage.get` of `enable_page.py`: look up with the plain
`FindUserRecord`; on an exact match set the enabled flag and put the
record, otherwise 403 `Invalid credentials`. -/
def get (db : List UserRecord) (email salt : String) (enabled : Bool)
    (now : Nat) : EnableResult × List UserRecord :=
  match FindUserRecord db email salt with
  | (some _, true) =>
    (EnableResult.Updated,
     replaceFirst db email (fun r => { r with enabled := enabled, last_modified := now }))
  | _ => (EnableResult.Forbidden, db)

end EnablePage

/-- The data-model invariant of the spec: at most one record per email. -/
def emailUnique (db : List UserRecord) : Prop :=
  db.Pairwise (fun a b => a.email ≠ b.email)

instance emailUnique.dec (db : List UserRecord) : Decidable (emailUnique db) := by
  unfold emailUnique
  infer_instance

/-- The enabled record of the integration tests (`tests.py`): email
`foo@gmail.com`, salt `00000000`, body `test-body`. -/
def rA : UserRecord :=
  { email := "foo@gmail.com", salt := "00000000", secrets := "test-body",
    enabled := true, created := 0, last_modified := 0 }

/-- The same record with its enabled flag cleared. -/
def rD : UserRecord :=
  { email := "foo@gmail.com", salt := "00000000", secrets := "test-body",
    enabled := false, created := 0, last_modified := 0 }

/-- A storage state that must be rejected for `(e, s)`: no record with that
email, or the first record with that email has a different salt, or it is
disabled. -/
def ForbiddenState (db : List UserRecord) (e s : String) : Prop :=
  (∀ r ∈ db, r.email ≠ e)
  ∨ (∃ r, db.find? (fun x => x.email == e) = some r ∧ r.salt ≠ s)
  ∨ (∃ r, db.find? (fun x => x.email == e) = some r ∧ r.enabled = false)

/-! Helper lemmas about the list-level storage model. -/

theorem find?_eq_none_of_no_email (db : List UserRecord) (e : String)
    (h : ∀ r ∈ db, r.email ≠ e) :
    db.find? (fun r => r.email == e) = none := by
  rw [List.find?_eq_none]
  intro x hx
  simpa using h x hx

theorem find?_replaceFirst (db : List UserRecord) (e : String)
    (f : UserRecord → UserRecord) (hf : ∀ x, (f x).email = x.email) :
    (replaceFirst db e f).find? (fun r => r.email == e) =
      (db.find? (fun r => r.email == e)).map f := by
  induction db with
  | nil => simp [replaceFirst]
  | cons a rest ih =>
    by_cases ha : (a.email == e) = true
    · have hfa : ((f a).email == e) = true := by rw [hf a]; exact ha
      simp only [replaceFirst, if_pos ha]
      rw [List.find?_cons_of_pos (p := fun (r : UserRecord) => r.email == e) _ hfa,
          List.find?_cons_of_pos (p := fun (r : UserRecord) => r.email == e) _ ha]
      rfl
    · simp only [replaceFirst, if_neg ha]
      rw [List.find?_cons_of_neg (p := fun (r : UserRecord) => r.email == e) _ ha,
          List.find?_cons_of_neg (p := fun (r : UserRecord) => r.email == e) _ ha]
      exact ih

theorem replaceFirst_congr (db : List UserRecord) (e : String)
    (f g : UserRecord → UserRecord) (r : UserRecord)
    (hfind : db.find? (fun x => x.email == e) = some r) (hfg : f r = g r) :
    replaceFirst db e f = replaceFirst db e g := by
  induction db with
  | nil => simp at hfind
  | cons a rest ih =>
    by_cases ha : (a.email == e) = true
    · rw [List.find?_cons_of_pos (p := fun (x : UserRecord) => x.email == e) _ ha] at hfind
      have : a = r := by injection hfind
      subst this
      simp only [replaceFirst, if_pos ha, hfg]
    · rw [List.find?_cons_of_neg (p := fun (x : UserRecord) => x.email == e) _ ha] at hfind
      simp only [replaceFirst, if_neg ha]
      rw [ih hfind]

theorem replaceFirst_replaceFirst (db : List UserRecord) (e : String)
    (f g : UserRecord → UserRecord) (hf : ∀ x, (f x).email = x.email) :
    replaceFirst (replaceFirst db e f) e g = replaceFirst db e (fun x => g (f x)) := by
  induction db with
  | nil => rfl
  | cons a rest ih =>
    by_cases ha : (a.email == e) = true
    · have hfa : ((f a).email == e) = true := by rw [hf a]; exact ha
      simp only [replaceFirst, if_pos ha, if_pos hfa]
    · simp only [replaceFirst, if_neg ha]
      rw [ih]

theorem removeFirst_no_email (db : List UserRecord) (e : String)
    (h : emailUnique db) : ∀ x ∈ removeFirst db e, x.email ≠ e := by
  induction db with
  | nil =>
    intro x hx
    simp [removeFirst] at hx
  | cons a rest ih =>
    rw [emailUnique, List.pairwise_cons] at h
    by_cases ha : (a.email == e) = true
    · intro x hx
      simp only [removeFirst, if_pos ha] at hx
      have hae : a.email = e := by simpa using ha
      have hne := h.1 x hx
      rw [hae] at hne
      exact fun hxe => hne hxe.symm
    · intro x hx
      simp only [removeFirst, if_neg ha] at hx
      rcases List.mem_cons.mp hx with rfl | hx'
      · simpa using ha
      · exact ih h.2 x hx'

theorem find?_append_none {α : Type} {p : α → Bool} (l1 l2 : List α)
    (h : l1.find? p = none) : (l1 ++ l2).find? p = l2.find? p := by
  induction l1 with
  | nil => rfl
  | cons a rest ih =>
    by_cases ha : p a = true
    · rw [List.find?_cons_of_pos (p := p) _ ha] at h
      exact absurd h (by simp)
    · rw [List.find?_cons_of_neg (p := p) _ ha] at h
      rw [List.cons_append, List.find?_cons_of_neg (p := p) _ ha]
      exact ih h

/-! Claim theorems. -/

/-- Claim C1.  The claim states that every operation preserves the
at-most-one-record-per-email invariant, including a Store whose email names
an existing record whose enabled flag is false.  The code violates this:
starting from the empty store, Store then SetEnabled(false) reach a
one-record state satisfying the invariant, and a further Store against the
disabled email is classified through `FindEnabledUserRecord` as "no record"
and appends a second record with the same email. -/
theorem store_on_disabled_breaks_uniqueness :
    (let s1 := (SecretsPage.put [] "foo@gmail.com" "00000000" "p1" 0).2
     let s2 := (EnablePage.get s1 "foo@gmail.com" "00000000" false 1).2
     emailUnique s2
     ∧ (SecretsPage.put s2 "foo@gmail.com" "11111111" "p2" 2).1 = StoreResult.Stored
     ∧ ¬ emailUnique (SecretsPage.put s2 "foo@gmail.com" "11111111" "p2" 2).2) := by
  decide

/-- Claim C2.  Classify returns NoMatch on an empty email and when no record
has the given email; when the (first) record with that email resolves and the
email is non-empty, it returns ExactMatch of that record iff its salt equals
the request salt under exact string equality and PartialMatch otherwise; and
ClassifyEnabledOnly equals Classify except that a resolved record with
enabled = false is downgraded to NoMatch regardless of salt correctness. -/
theorem classify_correct (db : List UserRecord) (e s : String) :
    Classify db "" s = MatchResult.NoMatch
    ∧ ((∀ r ∈ db, r.email ≠ e) → Classify db e s = MatchResult.NoMatch)
    ∧ (∀ r, db.find? (fun x => x.email == e) = some r → e ≠ "" →
        Classify db e s = if r.salt = s then MatchResult.ExactMatch r
                          else MatchResult.PartialMatch r)
    ∧ ClassifyEnabledOnly db e s =
        (match Classify db e s with
         | MatchResult.NoMatch => MatchResult.NoMatch
         | MatchResult.PartialMatch r =>
             if r.enabled then MatchResult.PartialMatch r else MatchResult.NoMatch
         | MatchResult.ExactMatch r =>
             if r.enabled then MatchResult.ExactMatch r else MatchResult.NoMatch) := by
  refine ⟨?_, ?_, ?_, ?_⟩
  · simp [Classify, FindUserRecord, toMatchResult]
  · intro h
    have hnone := find?_eq_none_of_no_email db e h
    by_cases he : e = ""
    · subst he
      simp [Classify, FindUserRecord, toMatchResult]
    · simp [Classify, FindUserRecord, he, hnone, toMatchResult]
  · intro r hr he
    simp only [Classify, FindUserRecord]
    rw [if_pos he, hr]
    by_cases hs : r.salt = s
    · simp [hs, toMatchResult]
    · have hb : (r.salt == s) = false := by simpa using hs
      simp [hs, hb, toMatchResult]
  · rcases hF : FindUserRecord db e s with ⟨orec, ex⟩
    cases orec with
    | none =>
      simp [ClassifyEnabledOnly, FindEnabledUserRecord, Classify, hF, toMatchResult]
    | some r =>
      cases hr : r.enabled <;> cases ex <;>
        simp [ClassifyEnabledOnly, FindEnabledUserRecord, Classify, hF, hr, toMatchResult]

/-- Witness for C2 at a concrete store and exact credentials. -/
theorem classify_correct_witness :
    Classify [rA] "foo@gmail.com" "00000000"
      = if rA.salt = "00000000" then MatchResult.ExactMatch rA
        else MatchResult.PartialMatch rA :=
  (classify_correct [rA] "foo@gmail.com" "00000000").2.2.1 rA (by decide) (by decide)

/-- Counterexample to C3 as stated: the empty string is an email with no
existing record, the salt "s" is non-empty and the payload is within the
size limit, yet Store returns Forbidden rather than Stored. -/
theorem store_fresh_roundtrip_cex :
    (∀ r ∈ ([] : List UserRecord), r.email ≠ "") ∧ ("s" : String) ≠ ""
    ∧ ("p" : String).length ≤ MAX_SIZE
    ∧ (SecretsPage.put [] "" "s" "p" 0).1 = StoreResult.Forbidden
    ∧ StoreResult.Forbidden ≠ StoreResult.Stored := by
  decide

/-- Claim C3 (amended: the email must also be non-empty).  A Store for a
non-empty email with no existing record, a non-empty salt and a payload
within the size limit returns Stored and appends exactly the record with
enabled = true, salt = S, secrets = P; the subsequent Fetch with the same
credentials returns Authorized with exactly that payload. -/
theorem store_fresh_roundtrip (db : List UserRecord) (E S P : String) (t : Nat)
    (hE : E ≠ "") (hS : S ≠ "") (hfresh : ∀ r ∈ db, r.email ≠ E)
    (hP : P.length ≤ MAX_SIZE) :
    SecretsPage.put db E S P t =
      (StoreResult.Stored, db ++ [UserRecord.mk E S P true t t])
    ∧ SecretsPage.get (db ++ [UserRecord.mk E S P true t t]) E S
      = FetchResult.Authorized P := by
  have hnone : db.find? (fun r => r.email == E) = none :=
    find?_eq_none_of_no_email db E hfresh
  have hF : FindUserRecord db E S = (none, false) := by
    unfold FindUserRecord
    rw [if_pos hE, hnone]
  have hFE : FindEnabledUserRecord db E S = (none, false) := by
    unfold FindEnabledUserRecord
    rw [hF]
  have hnotlt : ¬ MAX_SIZE < P.length := not_lt.mpr hP
  constructor
  · unfold SecretsPage.put
    rw [if_neg hnotlt, if_pos ⟨hE, hS⟩, hFE]
  · have hfind2 : (db ++ [UserRecord.mk E S P true t t]).find?
        (fun r => r.email == E) = some (UserRecord.mk E S P true t t) := by
      rw [find?_append_none _ _ hnone]
      exact List.find?_cons_of_pos (p := fun (r : UserRecord) => r.email == E) _
        (by simp)
    have hF2 : FindUserRecord (db ++ [UserRecord.mk E S P true t t]) E S
        = (some (UserRecord.mk E S P true t t), true) := by
      unfold FindUserRecord
      rw [if_pos hE, hfind2]
      simp
    unfold SecretsPage.get FindEnabledUserRecord
    rw [hF2]
    simp

/-- Witness for C3 on the concrete scenario of the test suite. -/
theorem store_fresh_roundtrip_witness :
    SecretsPage.put [] "foo@gmail.com" "00000000" "test-body" 0 =
      (StoreResult.Stored,
       [UserRecord.mk "foo@gmail.com" "00000000" "test-body" true 0 0])
    ∧ SecretsPage.get
        [UserRecord.mk "foo@gmail.com" "00000000" "test-body" true 0 0]
        "foo@gmail.com" "00000000"
      = FetchResult.Authorized "test-body" := by
  have h := store_fresh_roundtrip [] "foo@gmail.com" "00000000" "test-body" 0
    (by decide) (by decide) (by decide) (by decide)
  simpa using h

/-- Claim C4.  A payload strictly larger than MAX_SIZE makes Store return
TooLarge for every store contents and every email and salt, and leaves the
store unchanged; the quantification over arbitrary stores and credentials
expresses that the size check is independent of any credential evaluation
or storage lookup. -/
theorem put_too_large (db : List UserRecord) (e s P : String) (t : Nat)
    (hP : MAX_SIZE < P.length) :
    SecretsPage.put db e s P t = (StoreResult.TooLarge, db) := by
  unfold SecretsPage.put
  rw [if_pos hP]

/-- Witness for C4: a 25601-byte payload with otherwise valid credentials. -/
theorem put_too_large_witness :
    SecretsPage.put [] "foo@gmail.com" "00000000"
        (String.mk (List.replicate 25601 ' ')) 0
      = (StoreResult.TooLarge, []) :=
  put_too_large [] "foo@gmail.com" "00000000" _ 0 (by
    show MAX_SIZE < (List.replicate 25601 ' ').length
    rw [List.length_replicate]
    norm_num [MAX_SIZE])

/-- Claim C5.  When the first record with email E is enabled and its salt
differs from the presented salt, a within-limit Store returns Forbidden and
the entire store, hence the existing record with all its fields and
timestamps, is unchanged. -/
theorem put_wrong_salt (db : List UserRecord) (E S2 P : String) (t : Nat)
    (r : UserRecord)
    (hfind : db.find? (fun x => x.email == E) = some r)
    (hen : r.enabled = true) (hne : r.salt ≠ S2) (hP : P.length ≤ MAX_SIZE) :
    SecretsPage.put db E S2 P t = (StoreResult.Forbidden, db) := by
  have hnotlt : ¬ MAX_SIZE < P.length := not_lt.mpr hP
  by_cases hE : E = ""
  · unfold SecretsPage.put
    rw [if_neg hnotlt, if_neg (by simp [hE])]
  · by_cases hS : S2 = ""
    · unfold SecretsPage.put
      rw [if_neg hnotlt, if_neg (by simp [hS])]
    · have hb : (r.salt == S2) = false := by simpa using hne
      have hF : FindUserRecord db E S2 = (some r, false) := by
        unfold FindUserRecord
        rw [if_pos hE, hfind]
        simp [hb]
      have hFE : FindEnabledUserRecord db E S2 = (some r, false) := by
        unfold FindEnabledUserRecord
        rw [hF]
        simp [hen]
      unfold SecretsPage.put
      rw [if_neg hnotlt, if_pos ⟨hE, hS⟩, hFE]

/-- Witness for C5: the wrong-salt Store of the test suite. -/
theorem put_wrong_salt_witness :
    SecretsPage.put [rA] "foo@gmail.com" "10000000" "other" 1
      = (StoreResult.Forbidden, [rA]) :=
  put_wrong_salt [rA] "foo@gmail.com" "10000000" "other" 1 rA
    (by decide) (by decide) (by decide) (by decide)

/-- Claim C6.  For a disabled record resolved with its correct salt, Fetch
and Delete return Forbidden, while SetEnabled (which uses the plain
classifier) returns Updated, sets the enabled flag, and a subsequent Fetch
with the same credentials returns Authorized with the stored secrets; and
SetEnabled on a NoMatch or PartialMatch classification returns Forbidden
with no state change. -/
theorem enable_reenable (db : List UserRecord) (E S : String) (t : Nat)
    (r : UserRecord) (hE : E ≠ "")
    (hfind : db.find? (fun x => x.email == E) = some r)
    (hsalt : r.salt = S) (hdis : r.enabled = false) :
    SecretsPage.get db E S = FetchResult.Forbidden
    ∧ SecretsPage.delete db E S = (DeleteResult.Forbidden, db)
    ∧ EnablePage.get db E S true t
        = (EnableResult.Updated,
           replaceFirst db E (fun x => { x with enabled := true, last_modified := t }))
    ∧ SecretsPage.get (EnablePage.get db E S true t).2 E S
        = FetchResult.Authorized r.secrets
    ∧ (∀ e2 s2 b2 t2, Classify db e2 s2 = MatchResult.NoMatch →
        EnablePage.get db e2 s2 b2 t2 = (EnableResult.Forbidden, db))
    ∧ (∀ e2 s2 b2 t2 x, Classify db e2 s2 = MatchResult.PartialMatch x →
        EnablePage.get db e2 s2 b2 t2 = (EnableResult.Forbidden, db)) := by
  have hF : FindUserRecord db E S = (some r, true) := by
    unfold FindUserRecord
    rw [if_pos hE, hfind]
    simp [hsalt]
  have hFE : FindEnabledUserRecord db E S = (none, false) := by
    unfold FindEnabledUserRecord
    rw [hF]
    simp [hdis]
  refine ⟨?_, ?_, ?_, ?_, ?_, ?_⟩
  · unfold SecretsPage.get
    rw [hFE]
  · unfold SecretsPage.delete
    rw [hFE]
  · unfold EnablePage.get
    rw [hF]
  · have h2nd : (EnablePage.get db E S true t).2
        = replaceFirst db E (fun x => { x with enabled := true, last_modified := t }) := by
      unfold EnablePage.get
      rw [hF]
    rw [h2nd]
    have hfind1 : (replaceFirst db E
          (fun x => { x with enabled := true, last_modified := t })).find?
          (fun x => x.email == E)
        = some { r with enabled := true, last_modified := t } := by
      rw [find?_replaceFirst db E
            (fun x => { x with enabled := true, last_modified := t })
            (fun x => rfl), hfind]
      rfl
    have hF1 : FindUserRecord (replaceFirst db E
          (fun x => { x with enabled := true, last_modified := t })) E S
        = (some { r with enabled := true, last_modified := t }, true) := by
      unfold FindUserRecord
      rw [if_pos hE, hfind1]
      simp [hsalt]
    unfold SecretsPage.get FindEnabledUserRecord
    rw [hF1]
    simp
  · intro e2 s2 b2 t2 hcl
    rcases h2 : FindUserRecord db e2 s2 with ⟨orec, ex⟩
    cases orec with
    | none =>
      cases ex <;> (unfold EnablePage.get; rw [h2])
    | some x =>
      unfold Classify at hcl
      rw [h2] at hcl
      cases ex <;> simp [toMatchResult] at hcl
  · intro e2 s2 b2 t2 x hcl
    rcases h2 : FindUserRecord db e2 s2 with ⟨orec, ex⟩
    cases orec with
    | none =>
      cases ex <;> (unfold EnablePage.get; rw [h2])
    | some y =>
      cases ex
      · unfold EnablePage.get
        rw [h2]
      · unfold Classify at hcl
        rw [h2] at hcl
        simp [toMatchResult] at hcl

/-- Witness for C6: re-enabling the disabled test record succeeds. -/
theorem enable_reenable_witness :
    EnablePage.get [rD] "foo@gmail.com" "00000000" true 5
      = (EnableResult.Updated,
         replaceFirst [rD] "foo@gmail.com"
           (fun x => { x with enabled := true, last_modified := 5 })) :=
  (enable_reenable [rD] "foo@gmail.com" "00000000" 5 rD
      (by decide) (by decide) (by decide) (by decide)).2.2.1

/-- Any storage state in one of the three rejection classes makes Fetch
return Forbidden and Delete return Forbidden without changing the store. -/
theorem forbidden_state_rejected (db : List UserRecord) (e s : String)
    (h : ForbiddenState db e s) :
    SecretsPage.get db e s = FetchResult.Forbidden
    ∧ SecretsPage.delete db e s = (DeleteResult.Forbidden, db) := by
  have hFE : FindEnabledUserRecord db e s = (none, false)
      ∨ ∃ r, FindEnabledUserRecord db e s = (some r, false) := by
    by_cases he : e = ""
    · left
      unfold FindEnabledUserRecord FindUserRecord
      rw [if_neg (by simp [he])]
    · rcases h with hno | ⟨r, hfind, hsalt⟩ | ⟨r, hfind, hdis⟩
      · left
        have hnone := find?_eq_none_of_no_email db e hno
        unfold FindEnabledUserRecord FindUserRecord
        rw [if_pos he, hnone]
      · have hb : (r.salt == s) = false := by simpa using hsalt
        have hF : FindUserRecord db e s = (some r, false) := by
          unfold FindUserRecord
          rw [if_pos he, hfind]
          simp [hb]
        cases hr : r.enabled
        · left
          unfold FindEnabledUserRecord
          rw [hF]
          simp [hr]
        · right
          refine ⟨r, ?_⟩
          unfold FindEnabledUserRecord
          rw [hF]
          simp [hr]
      · left
        have hF : FindUserRecord db e s = (some r, r.salt == s) := by
          unfold FindUserRecord
          rw [if_pos he, hfind]
        unfold FindEnabledUserRecord
        rw [hF]
        simp [hdis]
  constructor
  · rcases hFE with h2 | ⟨r, h2⟩ <;> (unfold SecretsPage.get; rw [h2])
  · rcases hFE with h2 | ⟨r, h2⟩ <;> (unfold SecretsPage.delete; rw [h2])

/-- Claim C7.  Over any two storage states that each fall in one of the
three rejection classes for `(e, s)` - no record with that email, a record
with a different salt, or a disabled record - the Fetch outcomes coincide
(both Forbidden) and the Delete outcomes coincide (both Forbidden, no state
change), so the outcome does not let an observer distinguish account
existence from credential failure. -/
theorem forbidden_indistinguishable (db1 db2 : List UserRecord) (e s : String)
    (h1 : ForbiddenState db1 e s) (h2 : ForbiddenState db2 e s) :
    SecretsPage.get db1 e s = SecretsPage.get db2 e s
    ∧ SecretsPage.get db1 e s = FetchResult.Forbidden
    ∧ (SecretsPage.delete db1 e s).1 = (SecretsPage.delete db2 e s).1
    ∧ SecretsPage.delete db1 e s = (DeleteResult.Forbidden, db1)
    ∧ SecretsPage.delete db2 e s = (DeleteResult.Forbidden, db2) := by
  obtain ⟨g1, d1⟩ := forbidden_state_rejected db1 e s h1
  obtain ⟨g2, d2⟩ := forbidden_state_rejected db2 e s h2
  refine ⟨g1.trans g2.symm, g1, ?_, d1, d2⟩
  rw [d1, d2]

/-- Witness for C7: the empty store and a store holding only the disabled
test record produce the same Fetch outcome. -/
theorem forbidden_indistinguishable_witness :
    SecretsPage.get [] "foo@gmail.com" "00000000"
      = SecretsPage.get [rD] "foo@gmail.com" "00000000" :=
  (forbidden_indistinguishable [] [rD] "foo@gmail.com" "00000000"
      (Or.inl (by decide)) (Or.inr (Or.inr ⟨rD, by decide, by decide⟩))).1

/-- Counterexample to the repeat-delete part of C8 as stated: through the
reachable trace Store, SetEnabled(false), Store (which duplicates the
email), SetEnabled(true), a successful Delete is immediately followed by a
second Delete with the same credentials that again returns Deleted, not
Forbidden. -/
theorem delete_idempotent_cex :
    (let t1 := (SecretsPage.put [] "foo@gmail.com" "00000000" "p1" 0).2
     let t2 := (EnablePage.get t1 "foo@gmail.com" "00000000" false 1).2
     let t3 := (SecretsPage.put t2 "foo@gmail.com" "00000000" "p2" 2).2
     let t4 := (EnablePage.get t3 "foo@gmail.com" "00000000" true 3).2
     (SecretsPage.delete t4 "foo@gmail.com" "00000000").1 = DeleteResult.Deleted
     ∧ (SecretsPage.delete (SecretsPage.delete t4 "foo@gmail.com" "00000000").2
          "foo@gmail.com" "00000000").1 = DeleteResult.Deleted
     ∧ DeleteResult.Deleted ≠ DeleteResult.Forbidden) := by
  decide

/-- Claim C8 (amended: the repeat-delete part holds provided the store has
at most one record per email).  Delete returns Deleted and removes the
resolved record exactly when ClassifyEnabledOnly is an ExactMatch; on any
other classification it returns Forbidden and changes nothing; Delete when
no record has the email returns Forbidden; and on a store with unique
emails, repeating Delete immediately after a successful delete returns
Forbidden. -/
theorem delete_correct (db : List UserRecord) (e s : String) :
    (∀ r, ClassifyEnabledOnly db e s = MatchResult.ExactMatch r →
        SecretsPage.delete db e s = (DeleteResult.Deleted, removeFirst db e))
    ∧ ((∀ r, ClassifyEnabledOnly db e s ≠ MatchResult.ExactMatch r) →
        SecretsPage.delete db e s = (DeleteResult.Forbidden, db))
    ∧ ((∀ r ∈ db, r.email ≠ e) →
        SecretsPage.delete db e s = (DeleteResult.Forbidden, db))
    ∧ (emailUnique db → ∀ db2,
        SecretsPage.delete db e s = (DeleteResult.Deleted, db2) →
        (SecretsPage.delete db2 e s).1 = DeleteResult.Forbidden) := by
  refine ⟨?_, ?_, ?_, ?_⟩
  · intro r hcl
    rcases hFE : FindEnabledUserRecord db e s with ⟨orec, ex⟩
    unfold ClassifyEnabledOnly at hcl
    rw [hFE] at hcl
    cases orec with
    | none => simp [toMatchResult] at hcl
    | some y =>
      cases ex
      · simp [toMatchResult] at hcl
      · have hy : y = r := by
          simpa [toMatchResult] using hcl
        subst hy
        unfold SecretsPage.delete
        rw [hFE]
  · intro hne
    rcases hFE : FindEnabledUserRecord db e s with ⟨orec, ex⟩
    cases orec with
    | none =>
      cases ex <;> (unfold SecretsPage.delete; rw [hFE])
    | some y =>
      cases ex
      · unfold SecretsPage.delete
        rw [hFE]
      · exfalso
        apply hne y
        unfold ClassifyEnabledOnly
        rw [hFE]
        rfl
  · intro hno
    have hnone := find?_eq_none_of_no_email db e hno
    have hF : FindUserRecord db e s = (none, false) := by
      unfold FindUserRecord
      by_cases he : e = ""
      · rw [if_neg (by simp [he])]
      · rw [if_pos he, hnone]
    have hFE : FindEnabledUserRecord db e s = (none, false) := by
      unfold FindEnabledUserRecord
      rw [hF]
    unfold SecretsPage.delete
    rw [hFE]
  · intro hu db2 hdel
    rcases hFE : FindEnabledUserRecord db e s with ⟨orec, ex⟩
    unfold SecretsPage.delete at hdel
    rw [hFE] at hdel
    cases orec with
    | none =>
      cases ex <;> simp at hdel
    | some y =>
      cases ex
      · simp at hdel
      · have hdb2 : db2 = removeFirst db e := by
          injection hdel with h1 h2
          exact h2.symm
        subst hdb2
        have hno2 := removeFirst_no_email db e hu
        have hnone2 := find?_eq_none_of_no_email _ e hno2
        have hF2 : FindUserRecord (removeFirst db e) e s = (none, false) := by
          unfold FindUserRecord
          by_cases he : e = ""
          · rw [if_neg (by simp [he])]
          · rw [if_pos he, hnone2]
        have hFE2 : FindEnabledUserRecord (removeFirst db e) e s = (none, false) := by
          unfold FindEnabledUserRecord
          rw [hF2]
        unfold SecretsPage.delete
        rw [hFE2]

/-- Witness for C8: deleting the test record with exact credentials. -/
theorem delete_correct_witness :
    SecretsPage.delete [rA] "foo@gmail.com" "00000000"
      = (DeleteResult.Deleted, removeFirst [rA] "foo@gmail.com") :=
  (delete_correct [rA] "foo@gmail.com" "00000000").1 rA (by decide)

/-- Counterexample to C9 as stated: Store with an empty email but an
oversized payload returns TooLarge, not Forbidden - the size check takes
precedence over the empty-credential check. -/
theorem empty_email_oversize_cex :
    (SecretsPage.put [] "" "x" (String.mk (List.replicate 25601 ' ')) 0).1
      = StoreResult.TooLarge
    ∧ StoreResult.TooLarge ≠ StoreResult.Forbidden := by
  constructor
  · have hP : MAX_SIZE < (String.mk (List.replicate 25601 ' ')).length := by
      show MAX_SIZE < (List.replicate 25601 ' ').length
      rw [List.length_replicate]
      norm_num [MAX_SIZE]
    unfold SecretsPage.put
    rw [if_pos hP]
  · decide

/-- Claim C9 (amended: for Store the payload must be within the size limit,
since the size check runs first and yields TooLarge otherwise).  On any
store whose persisted records all have non-empty salts (the data-model
invariant, maintained because Store is the only creation path and requires
a non-empty salt), an empty email or an empty salt routes every operation
to Forbidden with no state change. -/
theorem empty_credentials_forbidden (db : List UserRecord) (e s P : String)
    (b : Bool) (t : Nat)
    (hsalts : ∀ r ∈ db, r.salt ≠ "")
    (hes : e = "" ∨ s = "") (hP : P.length ≤ MAX_SIZE) :
    SecretsPage.get db e s = FetchResult.Forbidden
    ∧ SecretsPage.put db e s P t = (StoreResult.Forbidden, db)
    ∧ SecretsPage.delete db e s = (DeleteResult.Forbidden, db)
    ∧ EnablePage.get db e s b t = (EnableResult.Forbidden, db) := by
  have hnotlt : ¬ MAX_SIZE < P.length := not_lt.mpr hP
  have hvalid : ¬ (e ≠ "" ∧ s ≠ "") := by
    rcases hes with he | hs
    · simp [he]
    · simp [hs]
  have hF : FindUserRecord db e s = (none, false)
      ∨ ∃ r, FindUserRecord db e s = (some r, false) := by
    by_cases he : e = ""
    · left
      unfold FindUserRecord
      rw [if_neg (by simp [he])]
    · rcases hs : db.find? (fun x => x.email == e) with _ | r
      · left
        unfold FindUserRecord
        rw [if_pos he, hs]
      · right
        refine ⟨r, ?_⟩
        have hr : r ∈ db := List.mem_of_find?_eq_some hs
        have hsalt : r.salt ≠ "" := hsalts r hr
        have hse : s = "" := by
          rcases hes with he2 | hs2
          · exact absurd he2 he
          · exact hs2
        have hb : (r.salt == s) = false := by
          rw [hse]
          simpa using hsalt
        unfold FindUserRecord
        rw [if_pos he, hs]
        simp [hb]
  have hFE : FindEnabledUserRecord db e s = (none, false)
      ∨ ∃ r, FindEnabledUserRecord db e s = (some r, false) := by
    rcases hF with h | ⟨r, h⟩
    · left
      unfold FindEnabledUserRecord
      rw [h]
    · cases hr : r.enabled
      · left
        unfold FindEnabledUserRecord
        rw [h]
        simp [hr]
      · right
        refine ⟨r, ?_⟩
        unfold FindEnabledUserRecord
        rw [h]
        simp [hr]
  refine ⟨?_, ?_, ?_, ?_⟩
  · rcases hFE with h | ⟨r, h⟩ <;>
      (unfold SecretsPage.get; rw [h])
  · unfold SecretsPage.put
    rw [if_neg hnotlt, if_neg hvalid]
  · rcases hFE with h | ⟨r, h⟩ <;>
      (unfold SecretsPage.delete; rw [h])
  · rcases hF with h | ⟨r, h⟩ <;>
      (unfold EnablePage.get; rw [h])

/-- Witness for C9: an empty email against the test store. -/
theorem empty_credentials_forbidden_witness :
    SecretsPage.get [rA] "" "00000000" = FetchResult.Forbidden
    ∧ SecretsPage.put [rA] "" "00000000" "zz" 1 = (StoreResult.Forbidden, [rA])
    ∧ SecretsPage.delete [rA] "" "00000000" = (DeleteResult.Forbidden, [rA])
    ∧ EnablePage.get [rA] "" "00000000" false 1 = (EnableResult.Forbidden, [rA]) :=
  empty_credentials_forbidden [rA] "" "00000000" "zz" false 1
    (by decide) (by decide) (by decide)

/-- Claim C10.  With exact credentials for the resolved record, SetEnabled
returns Updated; calling it twice returns Updated both times and leaves the
store exactly as a single call made at the second time would (the only
difference a single call leaves is `last_modified`); and when the requested
flag equals the record's current enabled value, the call changes nothing
but `last_modified`. -/
theorem setEnabled_idempotent (db : List UserRecord) (e s : String) (b : Bool)
    (t1 t2 : Nat) (r : UserRecord) (hE : e ≠ "")
    (hfind : db.find? (fun x => x.email == e) = some r) (hsalt : r.salt = s) :
    (EnablePage.get db e s b t1).1 = EnableResult.Updated
    ∧ (EnablePage.get (EnablePage.get db e s b t1).2 e s b t2).1
        = EnableResult.Updated
    ∧ (EnablePage.get (EnablePage.get db e s b t1).2 e s b t2).2
        = (EnablePage.get db e s b t2).2
    ∧ (b = r.enabled →
        (EnablePage.get db e s b t1).2
          = replaceFirst db e (fun x => { x with last_modified := t1 })) := by
  have hF : FindUserRecord db e s = (some r, true) := by
    unfold FindUserRecord
    rw [if_pos hE, hfind]
    simp [hsalt]
  have hget1 : EnablePage.get db e s b t1
      = (EnableResult.Updated,
         replaceFirst db e (fun x => { x with enabled := b, last_modified := t1 })) := by
    unfold EnablePage.get
    rw [hF]
  have h2nd : (EnablePage.get db e s b t1).2
      = replaceFirst db e (fun x => { x with enabled := b, last_modified := t1 }) := by
    rw [hget1]
  have hget1t2 : EnablePage.get db e s b t2
      = (EnableResult.Updated,
         replaceFirst db e (fun x => { x with enabled := b, last_modified := t2 })) := by
    unfold EnablePage.get
    rw [hF]
  have h2ndt2 : (EnablePage.get db e s b t2).2
      = replaceFirst db e (fun x => { x with enabled := b, last_modified := t2 }) := by
    rw [hget1t2]
  have hfind1 : (replaceFirst db e
        (fun x => { x with enabled := b, last_modified := t1 })).find?
        (fun x => x.email == e)
      = some { r with enabled := b, last_modified := t1 } := by
    rw [find?_replaceFirst db e
          (fun x => { x with enabled := b, last_modified := t1 })
          (fun x => rfl), hfind]
    rfl
  have hF1 : FindUserRecord (replaceFirst db e
        (fun x => { x with enabled := b, last_modified := t1 })) e s
      = (some { r with enabled := b, last_modified := t1 }, true) := by
    unfold FindUserRecord
    rw [if_pos hE, hfind1]
    simp [hsalt]
  have hget2 : EnablePage.get (replaceFirst db e
        (fun x => { x with enabled := b, last_modified := t1 })) e s b t2
      = (EnableResult.Updated,
         replaceFirst (replaceFirst db e
             (fun x => { x with enabled := b, last_modified := t1 })) e
           (fun x => { x with enabled := b, last_modified := t2 })) := by
    unfold EnablePage.get
    rw [hF1]
  refine ⟨?_, ?_, ?_, ?_⟩
  · rw [hget1]
  · rw [h2nd, hget2]
  · rw [h2nd, hget2, h2ndt2]
    rw [replaceFirst_replaceFirst db e
          (fun x => { x with enabled := b, last_modified := t1 })
          (fun x => { x with enabled := b, last_modified := t2 })
          (fun x => rfl)]
  · intro hb
    rw [h2nd]
    exact replaceFirst_congr db e
      (fun x => { x with enabled := b, last_modified := t1 })
      (fun x => { x with last_modified := t1 }) r hfind (by rw [hb])

/-- Witness for C10: re-asserting the enabled flag of the test record only
touches `last_modified`. -/
theorem setEnabled_idempotent_witness :
    (EnablePage.get [rA] "foo@gmail.com" "00000000" true 7).2
      = replaceFirst [rA] "foo@gmail.com" (fun x => { x with last_modified := 7 }) :=
  (setEnabled_idempotent [rA] "foo@gmail.com" "00000000" true 7 8 rA
      (by decide) (by decide) (by decide)).2.2.2 (by decide)
